import Mathlib

/-!
Verification of the bound-derivation, ring-roundtrip, commitment and group
layers of a threshold Paillier library, via a shallow embedding of the
relevant program functions.

The numeric helpers (`const_log`, `factorial_upper_bound`,
`secret_sharing_polynomial_coefficient_size_upper_bound`,
`secret_key_share_size_upper_bound`, `adjusted_lagrange_coefficient_sized_number`)
are translated from the library's const functions.  The Rust `while` loop of
`const_log` is embedded with an explicit fuel argument that is large enough for
every input (the loop runs at most `clog 2 n ≤ n` iterations).
-/

/-- One step of the `const_log` while loop: while `power < n`, double `power`
and increment `counter`.  `fuel` bounds the number of iterations. -/
def constLogGo (n : Nat) : Nat → Nat → Nat → Nat
  | 0, _power, counter => counter
  | fuel + 1, power, counter =>
    if power < n then constLogGo n fuel (power * 2) (counter + 1) else counter

/-- Translation of the library's `const_log`: starting from `power = 1`,
`counter = 0`, double until `power ≥ n` and return the count.  The fuel `n`
always suffices because the loop runs `Nat.clog 2 n ≤ n` times. -/
def const_log (n : Nat) : Nat := constLogGo n n 1 0

theorem constLogGo_eq_clog (n : Nat) :
    ∀ (fuel c : Nat), c ≤ Nat.clog 2 n → Nat.clog 2 n ≤ c + fuel →
      constLogGo n fuel (2 ^ c) c = Nat.clog 2 n := by
  intro fuel
  induction fuel with
  | zero =>
    intro c h1 h2
    simp only [constLogGo]
    omega
  | succ fuel ih =>
    intro c h1 h2
    simp only [constLogGo]
    by_cases h : 2 ^ c < n
    · rw [if_pos h]
      have hc : c < Nat.clog 2 n := by
        by_contra hle
        push_neg at hle
        have hn : n ≤ 2 ^ c := (Nat.le_pow_iff_clog_le (by norm_num)).mpr hle
        omega
      have h2c : 2 ^ c * 2 = 2 ^ (c + 1) := by rw [pow_succ]
      rw [h2c]
      exact ih (c + 1) (by omega) (by omega)
    · rw [if_neg h]
      have hn : n ≤ 2 ^ c := by omega
      have := (Nat.le_pow_iff_clog_le (b := 2) (by norm_num)).mp hn
      omega

/-- The embedded loop computes exactly the ceiling base-2 logarithm. -/
theorem const_log_eq_clog (n : Nat) : const_log n = Nat.clog 2 n := by
  have hfuel : Nat.clog 2 n ≤ n := by
    rw [← Nat.le_pow_iff_clog_le (by norm_num)]
    exact (Nat.lt_two_pow n).le
  have h := constLogGo_eq_clog n n 0 (Nat.zero_le _) (by omega)
  simpa [const_log] using h

theorem const_log_mono {a b : Nat} (h : a ≤ b) : const_log a ≤ const_log b := by
  rw [const_log_eq_clog, const_log_eq_clog]
  exact Nat.clog_mono_right 2 h

theorem le_two_pow_const_log (n : Nat) : n ≤ 2 ^ const_log n := by
  rw [const_log_eq_clog]
  exact Nat.le_pow_clog (by norm_num) n

theorem const_log_le_of_le_pow {n k : Nat} (h : n ≤ 2 ^ k) : const_log n ≤ k := by
  rw [const_log_eq_clog]
  exact (Nat.le_pow_iff_clog_le (by norm_num)).mp h

theorem one_le_const_log {n : Nat} (h : 2 ≤ n) : 1 ≤ const_log n := by
  rw [const_log_eq_clog]
  exact Nat.clog_pos (by norm_num) h

example : const_log 9 = 4 := by decide
example : const_log 1024 = 10 := by decide
example : const_log 1025 = 11 := by decide

/-- Translation of `factorial_upper_bound`: the closed form
`(n + 1) * const_log (n + 1) - n`, an upper bound for `log2 (n!)`. -/
def factorial_upper_bound (number_of_parties : Nat) : Nat :=
  (number_of_parties + 1) * const_log (number_of_parties + 1) - number_of_parties

/-- The bit width of the Paillier modulus `N²` integer type: `U1024` concatenated
twice (`U1024 → U2048 → U4096`), so 4096 bits. -/
def PaillierModulusSizedNumber_BITS : Nat := 4096

/-- Modelled from the spec: `ComputationalSecuritySizedNumber` is defined in the
group crate, whose root module is not part of the given sources.  Per the spec,
security-parameter-sized quantities are fixed-width unsigned integers whose
width is the minimal power-of-two number of 64-bit machine words bounding the
value; for the 112-bit security level used throughout this repository that is a
`U128`, i.e. 128 bits. -/
def ComputationalSecuritySizedNumber_BITS : Nat := 128

/-- Translation of `pub type StatisticalSecuritySizedNumber =
ComputationalSecuritySizedNumber;` (an alias, so the widths coincide). -/
def StatisticalSecuritySizedNumber_BITS : Nat := ComputationalSecuritySizedNumber_BITS

/-- Translation of `secret_sharing_polynomial_coefficient_size_upper_bound`. -/
def secret_sharing_polynomial_coefficient_size_upper_bound
    (number_of_parties threshold : Nat) : Nat :=
  factorial_upper_bound number_of_parties
    + 2 * const_log threshold
    + 2
    + PaillierModulusSizedNumber_BITS
    + StatisticalSecuritySizedNumber_BITS
    + const_log number_of_parties

/-- Translation of `secret_key_share_size_upper_bound`. -/
def secret_key_share_size_upper_bound (number_of_parties threshold : Nat) : Nat :=
  secret_sharing_polynomial_coefficient_size_upper_bound number_of_parties threshold
    + threshold * const_log number_of_parties
    + 1

/-- Translation of `adjusted_lagrange_coefficient_sized_number`, the derived
width for `2 * (n choose j) * ∏ |j' - j|`. -/
def adjusted_lagrange_coefficient_sized_number (number_of_parties threshold : Nat) : Nat :=
  (number_of_parties - threshold) * const_log number_of_parties
    + 4 * number_of_parties
    + 2 * threshold

/-- Translation of `pub const MAX_PLAYERS: usize = 1024`. -/
def MAX_PLAYERS : Nat := 1024

/-- Translation of `SECRET_SHARING_POLYNOMIAL_COEFFICIENT_SIZE_UPPER_BOUND`. -/
def SECRET_SHARING_POLYNOMIAL_COEFFICIENT_SIZE_UPPER_BOUND : Nat :=
  secret_sharing_polynomial_coefficient_size_upper_bound MAX_PLAYERS MAX_PLAYERS

/-- Translation of `SECRET_KEY_SHARE_SIZE_UPPER_BOUND`. -/
def SECRET_KEY_SHARE_SIZE_UPPER_BOUND : Nat :=
  secret_key_share_size_upper_bound MAX_PLAYERS MAX_PLAYERS

/-- Translation of `ADJUSTED_LAGRANGE_COEFFICIENT_SIZE_UPPER_BOUND`. -/
def ADJUSTED_LAGRANGE_COEFFICIENT_SIZE_UPPER_BOUND : Nat :=
  adjusted_lagrange_coefficient_sized_number MAX_PLAYERS MAX_PLAYERS

/-- The machine word size used by `crypto_bigint::Limb` on the 64-bit targets
this library builds for. -/
def Limb_BITS : Nat := 64

/-- Modelled from the spec: Rust's `usize::next_power_of_two`, an external
standard-library function, returns the smallest power of two greater than or
equal to its argument (`1` for the argument `0`); realized here with the
repository's own ceiling-log helper as `2 ^ const_log n`. -/
def next_power_of_two (n : Nat) : Nat := 2 ^ const_log n

/-- The limb count of `SecretKeyShareSizedNumber =
Uint<{ SECRET_KEY_SHARE_SIZE_UPPER_BOUND.next_power_of_two() / Limb::BITS }>`. -/
def SecretKeyShareSizedNumber_LIMBS : Nat :=
  next_power_of_two SECRET_KEY_SHARE_SIZE_UPPER_BOUND / Limb_BITS

/-- The bit width of `SecretKeyShareSizedNumber` (limb count times word size). -/
def SecretKeyShareSizedNumber_BITS : Nat :=
  SecretKeyShareSizedNumber_LIMBS * Limb_BITS

/-- The pre-rounding bound used to size
`ProofOfEqualityOfDiscreteLogsRandomnessSizedNumber`:
`SECRET_KEY_SHARE_SIZE_UPPER_BOUND + 2 * ComputationalSecuritySizedNumber::BITS`. -/
def ProofOfEqualityOfDiscreteLogsRandomness_UPPER_BOUND : Nat :=
  SECRET_KEY_SHARE_SIZE_UPPER_BOUND + 2 * ComputationalSecuritySizedNumber_BITS

/-- The limb count of `ProofOfEqualityOfDiscreteLogsRandomnessSizedNumber`. -/
def ProofOfEqualityOfDiscreteLogsRandomnessSizedNumber_LIMBS : Nat :=
  next_power_of_two ProofOfEqualityOfDiscreteLogsRandomness_UPPER_BOUND / Limb_BITS

/-- The bit width of `ProofOfEqualityOfDiscreteLogsRandomnessSizedNumber`. -/
def ProofOfEqualityOfDiscreteLogsRandomnessSizedNumber_BITS : Nat :=
  ProofOfEqualityOfDiscreteLogsRandomnessSizedNumber_LIMBS * Limb_BITS

/-- The limb count of `AdjustedLagrangeCoefficientSizedNumber`. -/
def AdjustedLagrangeCoefficientSizedNumber_LIMBS : Nat :=
  next_power_of_two ADJUSTED_LAGRANGE_COEFFICIENT_SIZE_UPPER_BOUND / Limb_BITS

/-- The bit width of `AdjustedLagrangeCoefficientSizedNumber`. -/
def AdjustedLagrangeCoefficientSizedNumber_BITS : Nat :=
  AdjustedLagrangeCoefficientSizedNumber_LIMBS * Limb_BITS

/-- Translation of the test helper `fn factorial(num: u16) -> u64
{ (1u64..=u64::from(num)).product() }`: the product of `1..=n`. -/
def factorial : Nat → Nat
  | 0 => 1
  | n + 1 => factorial n * (n + 1)

example : SECRET_KEY_SHARE_SIZE_UPPER_BOUND = 24748 := by decide
example : ADJUSTED_LAGRANGE_COEFFICIENT_SIZE_UPPER_BOUND = 6144 := by decide
example : SecretKeyShareSizedNumber_BITS = 32768 := by decide
example : ProofOfEqualityOfDiscreteLogsRandomnessSizedNumber_BITS = 32768 := by decide
example : AdjustedLagrangeCoefficientSizedNumber_BITS = 8192 := by decide
example : factorial 15 = 1307674368000 := by decide

/-- Modelled from the spec: the external ring-arithmetic collaborator
(`crypto_bigint`'s `DynResidue`, not part of this repository's sources)
represents "a member of the ring Z_n" for a known odd modulus.  Per the spec's
interface, lifting stores the congruence class of the natural number and
`retrieve` returns "the unique natural-number representative of a ring
element", i.e. the canonical residue below the modulus. -/
structure DynResidue where
  residue : Nat
  modulus : Nat

/-- Modelled from the spec: `DynResidue::new` lifts a natural number into the
ring of the given modulus; the stored representative is the value reduced
modulo the modulus. -/
def DynResidue.new (x modulus : Nat) : DynResidue :=
  { residue := x % modulus, modulus := modulus }

/-- Modelled from the spec: `DynResidue::retrieve` returns the canonical
natural-number representative. -/
def DynResidue.retrieve (r : DynResidue) : Nat := r.residue

/-- Translation of the `AsRingElement` impl: `as_ring_element(x, n)` builds the
ring parameters for `n` and lifts `x`. -/
def as_ring_element (x n : Nat) : DynResidue := DynResidue.new x n

/-- Translation of the `AsNaturalNumber` impl: `as_natural_number` retrieves
the minimal natural number in the congruence class. -/
def as_natural_number (r : DynResidue) : Nat := r.retrieve

/-- The commitment crate's error type; `InvalidPublicParameters` is the variant
returned by `Pedersen::new` for a zero batch size (the crate's full error enum
is not in the given sources, so only the variants pedersen.rs uses are
modelled). -/
inductive CommitmentError where
  | invalidPublicParameters
  | groupInstantiation
deriving DecidableEq

/-- The public parameters of a batched Pedersen commitment: `BATCH_SIZE`
serialized message-generator values plus one randomness-generator value
(the scalar/group public-parameter fields are irrelevant to `new`'s control
flow and are abstracted into the value type `V`). -/
structure PedersenPublicParameters (batchSize : Nat) (V : Type) where
  messageGenerators : List V
  hlength : messageGenerators.length = batchSize
  randomnessGenerator : V

/-- A constructed Pedersen commitment scheme: instantiated message generators
and randomness generator. -/
structure Pedersen (G : Type) where
  messageGenerators : List G
  randomnessGenerator : G

/-- Translation of `Pedersen::new`: reject a zero batch size with
`InvalidPublicParameters`, then instantiate every message generator and the
randomness generator through the group-element constructor (passed in as
`groupElementNew`, since the concrete group is a type parameter in the
source), short-circuiting on the first failure (`flat_map_results` / `?`). -/
def Pedersen.new {batchSize : Nat} {V G : Type}
    (groupElementNew : V → Except CommitmentError G)
    (pp : PedersenPublicParameters batchSize V) : Except CommitmentError (Pedersen G) :=
  if batchSize = 0 then
    Except.error CommitmentError.invalidPublicParameters
  else do
    let messageGenerators ← pp.messageGenerators.mapM groupElementNew
    let randomnessGenerator ← groupElementNew pp.randomnessGenerator
    Except.ok { messageGenerators := messageGenerators, randomnessGenerator := randomnessGenerator }

/-- The group crate's error type (its root module is not in the given sources;
only the variants relevant to the embedded functions are modelled). -/
inductive GroupError where
  | invalidPublicParameters
  | hashToGroup
deriving DecidableEq

/-- The secp256k1 `Value` newtype around `k256::AffinePoint`: the only way to
instantiate it from outside its module is deserialization, which checks curve
membership.  The affine-point representation itself lives in the external
`k256` crate and is abstracted as a type parameter. -/
structure Secp256k1Value (A : Type) where
  point : A

/-- The secp256k1 public parameters struct, field for field (numeric fields as
naturals, the generator as a `Value`). -/
structure Secp256k1PublicParameters (A : Type) where
  name : String
  curveType : String
  order : Nat
  modulus : Nat
  generator : Secp256k1Value A
  curveEquationA : Nat
  curveEquationB : Nat

/-- The secp256k1 group element: a newtype around `k256::ProjectivePoint`
(abstracted as a type parameter). -/
structure Secp256k1GroupElement (P : Type) where
  point : P

/-- Translation of secp256k1 `GroupElement::new`: ignore the public parameters
and wrap `value.0.to_curve()` in `Ok` (`toCurve` abstracts `k256`'s
affine-to-projective conversion, which is total). -/
def Secp256k1GroupElement.new {A P : Type} (toCurve : A → P)
    (value : Secp256k1Value A) (_publicParameters : Secp256k1PublicParameters A) :
    Except GroupError (Secp256k1GroupElement P) :=
  Except.ok { point := toCurve value.point }

namespace ristretto

/-- Translation of the ristretto `ORDER` constant (`U256::from_be_hex`). -/
def ORDER : Nat :=
  0x1000000000000000000000000000000014def9dea2f79cd65812631a5cf5d3ed

/-- Translation of the ristretto `MODULUS` constant (`U256::from_be_hex`). -/
def MODULUS : Nat :=
  0x7fffffffffffffffffffffffffffffffffffffffffffffffffffffffffffffed

/-- Translation of the ristretto `CURVE_EQUATION_A` constant. -/
def CURVE_EQUATION_A : Nat :=
  0x0000000000000000000000000000000000000000000000000000000000076d06

/-- Translation of the ristretto `CURVE_EQUATION_B` constant (`U256::ONE`). -/
def CURVE_EQUATION_B : Nat := 1

end ristretto

theorem fub_step_aux (m a b : Nat) (h1 : 1 ≤ a) (h2 : a ≤ b) :
    (m + 2) * a - (m + 1) ≤ (m + 3) * b - (m + 2) := by
  have h3 : (m + 3) * a ≤ (m + 3) * b := Nat.mul_le_mul_left _ h2
  have h4 : (m + 3) * a = (m + 2) * a + a := by ring
  have h5 : (m + 2) * 1 ≤ (m + 2) * a := Nat.mul_le_mul_left _ h1
  omega

theorem factorial_upper_bound_le_succ (n : Nat) :
    factorial_upper_bound n ≤ factorial_upper_bound (n + 1) := by
  match n with
  | 0 => decide
  | m + 1 =>
    have h1 : 1 ≤ const_log (m + 2) := one_le_const_log (by omega)
    have h2 : const_log (m + 2) ≤ const_log (m + 3) := const_log_mono (by omega)
    exact fub_step_aux m (const_log (m + 2)) (const_log (m + 3)) h1 h2

theorem factorial_upper_bound_mono {a b : Nat} (h : a ≤ b) :
    factorial_upper_bound a ≤ factorial_upper_bound b :=
  monotone_nat_of_le_succ factorial_upper_bound_le_succ h

theorem sspc_mono_left {t n n' : Nat} (h : n ≤ n') :
    secret_sharing_polynomial_coefficient_size_upper_bound n t ≤
      secret_sharing_polynomial_coefficient_size_upper_bound n' t := by
  unfold secret_sharing_polynomial_coefficient_size_upper_bound
  have h1 := factorial_upper_bound_mono h
  have h2 := const_log_mono h
  omega

theorem sspc_mono_right {n t t' : Nat} (h : t ≤ t') :
    secret_sharing_polynomial_coefficient_size_upper_bound n t ≤
      secret_sharing_polynomial_coefficient_size_upper_bound n t' := by
  unfold secret_sharing_polynomial_coefficient_size_upper_bound
  have h1 := const_log_mono h
  omega

theorem skss_mono_left {t n n' : Nat} (h : n ≤ n') :
    secret_key_share_size_upper_bound n t ≤ secret_key_share_size_upper_bound n' t := by
  unfold secret_key_share_size_upper_bound
  have h1 := sspc_mono_left (t := t) h
  have h2 : t * const_log n ≤ t * const_log n' := Nat.mul_le_mul_left _ (const_log_mono h)
  omega

theorem skss_mono_right {n t t' : Nat} (h : t ≤ t') :
    secret_key_share_size_upper_bound n t ≤ secret_key_share_size_upper_bound n t' := by
  unfold secret_key_share_size_upper_bound
  have h1 := sspc_mono_right (n := n) h
  have h2 : t * const_log n ≤ t' * const_log n := Nat.mul_le_mul_right _ h
  omega

theorem alcsn_mono_left {t n n' : Nat} (h : n ≤ n') :
    adjusted_lagrange_coefficient_sized_number n t ≤
      adjusted_lagrange_coefficient_sized_number n' t := by
  unfold adjusted_lagrange_coefficient_sized_number
  have h1 : (n - t) * const_log n ≤ (n' - t) * const_log n' :=
    Nat.mul_le_mul (Nat.sub_le_sub_right h t) (const_log_mono h)
  omega

theorem alcsn_mono_right_small {n t t' : Nat} (h1 : t ≤ t') (h2 : t' ≤ n) (h4 : n ≤ 4) :
    adjusted_lagrange_coefficient_sized_number n t ≤
      adjusted_lagrange_coefficient_sized_number n t' := by
  unfold adjusted_lagrange_coefficient_sized_number
  have hL : const_log n ≤ 2 := by
    have := const_log_mono h4
    have h42 : const_log 4 = 2 := by decide
    omega
  have hsplit : (n - t) * const_log n = (n - t') * const_log n + (t' - t) * const_log n := by
    rw [← Nat.add_mul]
    congr 1
    omega
  have hbd : (t' - t) * const_log n ≤ (t' - t) * 2 := Nat.mul_le_mul_left _ hL
  omega

/-- C1 (amended): for `t ≤ n ≤ MAX_PLAYERS`, all three derived bound functions
are non-decreasing when `n` increases with `t` fixed, and
`secret_sharing_polynomial_coefficient_size_upper_bound` and
`secret_key_share_size_upper_bound` are non-decreasing when `t` increases with
`n` fixed; `adjusted_lagrange_coefficient_sized_number`, however, is
non-decreasing in `t` only when `n ≤ 4` (for larger `n` each unit increase of
`t` changes it by `2 - const_log n < 0`). -/
theorem derived_bounds_monotonicity :
    (∀ t n n', t ≤ n → n ≤ n' → n' ≤ MAX_PLAYERS →
      secret_sharing_polynomial_coefficient_size_upper_bound n t ≤
        secret_sharing_polynomial_coefficient_size_upper_bound n' t) ∧
    (∀ n t t', t ≤ t' → t' ≤ n → n ≤ MAX_PLAYERS →
      secret_sharing_polynomial_coefficient_size_upper_bound n t ≤
        secret_sharing_polynomial_coefficient_size_upper_bound n t') ∧
    (∀ t n n', t ≤ n → n ≤ n' → n' ≤ MAX_PLAYERS →
      secret_key_share_size_upper_bound n t ≤ secret_key_share_size_upper_bound n' t) ∧
    (∀ n t t', t ≤ t' → t' ≤ n → n ≤ MAX_PLAYERS →
      secret_key_share_size_upper_bound n t ≤ secret_key_share_size_upper_bound n t') ∧
    (∀ t n n', t ≤ n → n ≤ n' → n' ≤ MAX_PLAYERS →
      adjusted_lagrange_coefficient_sized_number n t ≤
        adjusted_lagrange_coefficient_sized_number n' t) ∧
    (∀ n t t', t ≤ t' → t' ≤ n → n ≤ 4 →
      adjusted_lagrange_coefficient_sized_number n t ≤
        adjusted_lagrange_coefficient_sized_number n t') := by
  refine ⟨?_, ?_, ?_, ?_, ?_, ?_⟩
  · intro t n n' _ h _
    exact sspc_mono_left h
  · intro n t t' h _ _
    exact sspc_mono_right h
  · intro t n n' _ h _
    exact skss_mono_left h
  · intro n t t' h _ _
    exact skss_mono_right h
  · intro t n n' _ h _
    exact alcsn_mono_left h
  · intro n t t' h h2 h4
    exact alcsn_mono_right_small h h2 h4

/-- C1 counterexample: at `n = 8` with `1 ≤ 2 ≤ 8 ≤ MAX_PLAYERS`, increasing
the threshold from 1 to 2 strictly decreases
`adjusted_lagrange_coefficient_sized_number` (55 to 54), refuting the claim
that every derived bound is non-decreasing when `t` increases with `n` fixed. -/
theorem adjusted_lagrange_bound_not_monotone_in_threshold :
    1 ≤ 2 ∧ 2 ≤ 8 ∧ 8 ≤ MAX_PLAYERS ∧
      ¬ (adjusted_lagrange_coefficient_sized_number 8 1 ≤
          adjusted_lagrange_coefficient_sized_number 8 2) := by
  decide

/-- Witness for C1: each conjunct of the amended monotonicity theorem applied
at concrete parameters. -/
theorem derived_bounds_monotonicity_witness :
    secret_sharing_polynomial_coefficient_size_upper_bound 3 2 ≤
      secret_sharing_polynomial_coefficient_size_upper_bound 5 2 ∧
    secret_sharing_polynomial_coefficient_size_upper_bound 5 2 ≤
      secret_sharing_polynomial_coefficient_size_upper_bound 5 3 ∧
    secret_key_share_size_upper_bound 3 2 ≤ secret_key_share_size_upper_bound 5 2 ∧
    secret_key_share_size_upper_bound 5 2 ≤ secret_key_share_size_upper_bound 5 3 ∧
    adjusted_lagrange_coefficient_sized_number 3 2 ≤
      adjusted_lagrange_coefficient_sized_number 5 2 ∧
    adjusted_lagrange_coefficient_sized_number 4 1 ≤
      adjusted_lagrange_coefficient_sized_number 4 2 :=
  ⟨derived_bounds_monotonicity.1 2 3 5 (by decide) (by decide) (by decide),
   derived_bounds_monotonicity.2.1 5 2 3 (by decide) (by decide) (by decide),
   derived_bounds_monotonicity.2.2.1 2 3 5 (by decide) (by decide) (by decide),
   derived_bounds_monotonicity.2.2.2.1 5 2 3 (by decide) (by decide) (by decide),
   derived_bounds_monotonicity.2.2.2.2.1 2 3 5 (by decide) (by decide) (by decide),
   derived_bounds_monotonicity.2.2.2.2.2 4 1 2 (by decide) (by decide) (by decide)⟩

theorem succ_pow_mul_le (k m : Nat) :
    (k + 1) ^ (m + 1) + m * (k + 1) ^ m ≤ (k + 2) ^ m * (k + 1) := by
  induction m with
  | zero => simp
  | succ m ih =>
    show (k + 1) ^ (m + 2) + (m + 1) * (k + 1) ^ (m + 1) ≤ (k + 2) ^ (m + 1) * (k + 1)
    have expand : (k + 2) * ((k + 1) ^ (m + 1) + m * (k + 1) ^ m) =
        (k + 1) ^ (m + 2) + (m + 1) * (k + 1) ^ (m + 1) + m * (k + 1) ^ m := by ring
    have h2 : (k + 2) * ((k + 1) ^ (m + 1) + m * (k + 1) ^ m) ≤
        (k + 2) * ((k + 2) ^ m * (k + 1)) := Nat.mul_le_mul_left _ ih
    have h3 : (k + 2) * ((k + 2) ^ m * (k + 1)) = (k + 2) ^ (m + 1) * (k + 1) := by ring
    omega

theorem two_mul_succ_pow_le (k : Nat) : 2 * (k + 1) ^ (k + 1) ≤ (k + 2) ^ (k + 1) := by
  have h := succ_pow_mul_le k (k + 1)
  have h2 : 2 * (k + 1) ^ (k + 1) * (k + 1) =
      (k + 1) ^ (k + 1 + 1) + (k + 1) * (k + 1) ^ (k + 1) := by ring
  have h3 : 2 * (k + 1) ^ (k + 1) * (k + 1) ≤ (k + 2) ^ (k + 1) * (k + 1) := by
    rw [h2]
    exact h
  exact Nat.le_of_mul_le_mul_right h3 (by omega)

theorem two_pow_mul_factorial_le (n : Nat) : 2 ^ n * factorial n ≤ (n + 1) ^ n := by
  induction n with
  | zero => simp [factorial]
  | succ n ih =>
    show 2 ^ (n + 1) * factorial (n + 1) ≤ (n + 2) ^ (n + 1)
    have h1 : 2 ^ (n + 1) * factorial (n + 1) = 2 * (n + 1) * (2 ^ n * factorial n) := by
      simp only [factorial]
      ring
    have h3 : 2 * (n + 1) * (2 ^ n * factorial n) ≤ 2 * (n + 1) * (n + 1) ^ n :=
      Nat.mul_le_mul_left _ ih
    have h4 : 2 * (n + 1) * (n + 1) ^ n = 2 * (n + 1) ^ (n + 1) := by ring
    have h5 := two_mul_succ_pow_le n
    omega

/-- C4: for every `1 ≤ n ≤ MAX_PLAYERS`, `n! < 2 ^ factorial_upper_bound n`
(with `factorial_upper_bound n = (n + 1) * const_log (n + 1) - n`); the
closed-form `(n+1)·log2(n+1) − n` expression upper-bounds `log2 (n!)`. -/
theorem n_factorial_is_bounded_correctly (n : Nat) (h1 : 1 ≤ n) (_h2 : n ≤ MAX_PLAYERS) :
    factorial n < 2 ^ factorial_upper_bound n := by
  have hL1 : 1 ≤ const_log (n + 1) := one_le_const_log (by omega)
  have hle : n + 1 ≤ 2 ^ const_log (n + 1) := le_two_pow_const_log (n + 1)
  have hpow : (n + 1) ^ n ≤ (2 ^ const_log (n + 1)) ^ n := Nat.pow_le_pow_left hle n
  have hmain : 2 ^ n * factorial n ≤ 2 ^ (const_log (n + 1) * n) := by
    rw [pow_mul]
    exact le_trans (two_pow_mul_factorial_le n) hpow
  have hLn : 1 * n ≤ const_log (n + 1) * n := Nat.mul_le_mul_right _ hL1
  have hsplit : 2 ^ (const_log (n + 1) * n) = 2 ^ (const_log (n + 1) * n - n) * 2 ^ n := by
    rw [← pow_add]
    congr 1
    omega
  have hfact : factorial n ≤ 2 ^ (const_log (n + 1) * n - n) := by
    rw [hsplit] at hmain
    have hm2 : factorial n * 2 ^ n ≤ 2 ^ (const_log (n + 1) * n - n) * 2 ^ n := by
      calc factorial n * 2 ^ n = 2 ^ n * factorial n := Nat.mul_comm _ _
        _ ≤ 2 ^ (const_log (n + 1) * n - n) * 2 ^ n := hmain
    exact Nat.le_of_mul_le_mul_right hm2 (Nat.pos_pow_of_pos n (by omega))
  have hfub : const_log (n + 1) * n - n < factorial_upper_bound n := by
    unfold factorial_upper_bound
    have hx : (n + 1) * const_log (n + 1) = const_log (n + 1) * n + const_log (n + 1) := by
      ring
    omega
  exact lt_of_le_of_lt hfact (pow_lt_pow_right₀ (by omega) hfub)

/-- Witness for C4: the theorem applied at `n = 15`, one of the test cases. -/
theorem n_factorial_is_bounded_correctly_witness :
    factorial 15 < 2 ^ factorial_upper_bound 15 :=
  n_factorial_is_bounded_correctly 15 (by decide) (by decide)

/-- C5: for every `x ≥ 1`, `const_log x` equals the ceiling base-2 logarithm
`Nat.clog 2 x`, and it matches the reference table
`const_log 1 = 0, …, const_log 9 = 4`. -/
theorem const_log_computes_correctly :
    (∀ x : Nat, 1 ≤ x → const_log x = Nat.clog 2 x) ∧
    const_log 1 = 0 ∧ const_log 2 = 1 ∧ const_log 3 = 2 ∧ const_log 4 = 2 ∧
    const_log 5 = 3 ∧ const_log 6 = 3 ∧ const_log 7 = 3 ∧ const_log 8 = 3 ∧
    const_log 9 = 4 := by
  refine ⟨fun x _ => const_log_eq_clog x, ?_⟩
  decide

/-- Witness for C5: the ceiling-log characterization applied at `x = 9`. -/
theorem const_log_computes_correctly_witness : const_log 9 = Nat.clog 2 9 :=
  const_log_computes_correctly.1 9 (by decide)

/-- C2: for all `t ≤ n ≤ MAX_PLAYERS`, every `(t+1)`-element quorum
`S ⊆ {1, …, n}` and every `j ∈ S`, the adjusted Lagrange coefficient magnitude
`2 * (n choose j) * ∏ over i in [n] without S of the distance from i to j` is
strictly below `2 ^ adjusted_lagrange_coefficient_sized_number n t`: the
statically derived width is never exceeded by a runtime adjusted Lagrange
coefficient. -/
theorem adjusted_lagrange_coefficient_fits_derived_width
    (n t : Nat) (S : Finset Nat) (j : Nat)
    (htn : t ≤ n) (_hnmax : n ≤ MAX_PLAYERS)
    (hS : S ⊆ Finset.Icc 1 n) (hcard : S.card = t + 1) (hj : j ∈ S) :
    2 * Nat.choose n j * (∏ i ∈ Finset.Icc 1 n \ S, Nat.dist i j) <
      2 ^ adjusted_lagrange_coefficient_sized_number n t := by
  have hjmem := hS hj
  rw [Finset.mem_Icc] at hjmem
  have hn1 : 1 ≤ n := le_trans hjmem.1 hjmem.2
  have htn1 : t + 1 ≤ n := by
    have hcle := Finset.card_le_card hS
    rw [hcard, Nat.card_Icc] at hcle
    omega
  have hnc : n ≤ 2 ^ const_log n := le_two_pow_const_log n
  have hsd : (Finset.Icc 1 n \ S).card = n - (t + 1) := by
    rw [Finset.card_sdiff hS, hcard, Nat.card_Icc]
    omega
  have hprod : (∏ i ∈ Finset.Icc 1 n \ S, Nat.dist i j) ≤
      (2 ^ const_log n) ^ (n - (t + 1)) := by
    rw [← hsd]
    apply Finset.prod_le_pow_card
    intro i hi
    rw [Finset.mem_sdiff, Finset.mem_Icc] at hi
    have hi1 := hi.1.1
    have hi2 := hi.1.2
    simp only [Nat.dist]
    omega
  have hchoose : Nat.choose n j ≤ 2 ^ n := by
    calc Nat.choose n j ≤ ∑ i ∈ Finset.range (n + 1), Nat.choose n i :=
          Finset.single_le_sum (fun i _ => Nat.zero_le _)
            (Finset.mem_range.mpr (by omega))
      _ = 2 ^ n := Nat.sum_range_choose n
  have key : 2 * Nat.choose n j * (∏ i ∈ Finset.Icc 1 n \ S, Nat.dist i j) ≤
      2 ^ (1 + n + const_log n * (n - (t + 1))) := by
    rw [pow_add, pow_add, pow_one, pow_mul]
    exact Nat.mul_le_mul (Nat.mul_le_mul_left 2 hchoose) hprod
  have hexp : 1 + n + const_log n * (n - (t + 1)) <
      adjusted_lagrange_coefficient_sized_number n t := by
    unfold adjusted_lagrange_coefficient_sized_number
    have hsplit : (n - t) * const_log n =
        (n - (t + 1)) * const_log n + const_log n := by
      have hnt : n - t = (n - (t + 1)) + 1 := by omega
      rw [hnt, Nat.add_mul, Nat.one_mul]
    have hcomm : const_log n * (n - (t + 1)) = (n - (t + 1)) * const_log n :=
      Nat.mul_comm _ _
    omega
  exact lt_of_le_of_lt key (pow_lt_pow_right₀ (by omega) hexp)

/-- Witness for C2: the theorem applied at `n = 3`, `t = 1`, quorum `{1, 2}`,
`j = 1`. -/
theorem adjusted_lagrange_coefficient_fits_derived_width_witness :
    2 * Nat.choose 3 1 * (∏ i ∈ Finset.Icc 1 3 \ ({1, 2} : Finset Nat), Nat.dist i 1) <
      2 ^ adjusted_lagrange_coefficient_sized_number 3 1 :=
  adjusted_lagrange_coefficient_fits_derived_width 3 1 {1, 2} 1 (by decide) (by decide)
    (by decide) (by decide) (by decide)

/-- C3: for every odd modulus `m > 1` and every natural number `x` of the
matching width, lifting `x` into the ring of modulus `m` and retrieving the
natural-number representative yields `x % m`, and exactly `x` whenever
`x < m`. -/
theorem as_natural_number_and_as_natural_number_circles_correctly
    (m x : Nat) (_hodd : Odd m) (_hm : 1 < m)
    (_hx : x < 2 ^ PaillierModulusSizedNumber_BITS) :
    as_natural_number (as_ring_element x m) = x % m ∧
      (x < m → as_natural_number (as_ring_element x m) = x) :=
  ⟨rfl, fun h => Nat.mod_eq_of_lt h⟩

/-- Witness for C3: the round trip at the odd modulus `m = 5` with `x = 7`. -/
theorem ring_roundtrip_witness :
    as_natural_number (as_ring_element 7 5) = 7 % 5 ∧
      (7 < 5 → as_natural_number (as_ring_element 7 5) = 7) :=
  as_natural_number_and_as_natural_number_circles_correctly 5 7 ⟨2, by decide⟩
    (by decide)
    (lt_of_lt_of_le (by decide : (7 : Nat) < 2 ^ 3)
      (Nat.pow_le_pow_right (by decide) (by decide)))

theorem le_next_power_of_two (n : Nat) : n ≤ next_power_of_two n :=
  le_two_pow_const_log n

theorem next_power_of_two_le {n k : Nat} (h : n ≤ 2 ^ k) : next_power_of_two n ≤ 2 ^ k :=
  Nat.pow_le_pow_right (by omega) (const_log_le_of_le_pow h)

/-- C6: each of the three exported fixed-width integer types has a bit width
equal to the least power of two that is at least its derived upper bound: the
width is a power of two, the limb count is a power of two (a power-of-two
number of 64-bit machine words), the derived bound fits, and any power of two
at least the bound is at least the width. -/
theorem sized_number_types_minimal_power_of_two_widths :
    ((∃ k, SecretKeyShareSizedNumber_LIMBS = 2 ^ k) ∧
     SECRET_KEY_SHARE_SIZE_UPPER_BOUND ≤ SecretKeyShareSizedNumber_BITS ∧
     (∃ k, SecretKeyShareSizedNumber_BITS = 2 ^ k) ∧
     (∀ k, SECRET_KEY_SHARE_SIZE_UPPER_BOUND ≤ 2 ^ k →
       SecretKeyShareSizedNumber_BITS ≤ 2 ^ k)) ∧
    ((∃ k, ProofOfEqualityOfDiscreteLogsRandomnessSizedNumber_LIMBS = 2 ^ k) ∧
     ProofOfEqualityOfDiscreteLogsRandomness_UPPER_BOUND ≤
       ProofOfEqualityOfDiscreteLogsRandomnessSizedNumber_BITS ∧
     (∃ k, ProofOfEqualityOfDiscreteLogsRandomnessSizedNumber_BITS = 2 ^ k) ∧
     (∀ k, ProofOfEqualityOfDiscreteLogsRandomness_UPPER_BOUND ≤ 2 ^ k →
       ProofOfEqualityOfDiscreteLogsRandomnessSizedNumber_BITS ≤ 2 ^ k)) ∧
    ((∃ k, AdjustedLagrangeCoefficientSizedNumber_LIMBS = 2 ^ k) ∧
     ADJUSTED_LAGRANGE_COEFFICIENT_SIZE_UPPER_BOUND ≤
       AdjustedLagrangeCoefficientSizedNumber_BITS ∧
     (∃ k, AdjustedLagrangeCoefficientSizedNumber_BITS = 2 ^ k) ∧
     (∀ k, ADJUSTED_LAGRANGE_COEFFICIENT_SIZE_UPPER_BOUND ≤ 2 ^ k →
       AdjustedLagrangeCoefficientSizedNumber_BITS ≤ 2 ^ k)) := by
  refine ⟨⟨⟨9, by decide⟩, ?_, ⟨15, by decide⟩, ?_⟩,
          ⟨⟨9, by decide⟩, ?_, ⟨15, by decide⟩, ?_⟩,
          ⟨⟨7, by decide⟩, ?_, ⟨13, by decide⟩, ?_⟩⟩
  · exact le_of_le_of_eq (le_next_power_of_two _)
      (by decide : next_power_of_two SECRET_KEY_SHARE_SIZE_UPPER_BOUND =
        SecretKeyShareSizedNumber_BITS)
  · intro k hk
    calc SecretKeyShareSizedNumber_BITS
        = next_power_of_two SECRET_KEY_SHARE_SIZE_UPPER_BOUND := by decide
      _ ≤ 2 ^ k := next_power_of_two_le hk
  · exact le_of_le_of_eq (le_next_power_of_two _)
      (by decide : next_power_of_two ProofOfEqualityOfDiscreteLogsRandomness_UPPER_BOUND =
        ProofOfEqualityOfDiscreteLogsRandomnessSizedNumber_BITS)
  · intro k hk
    calc ProofOfEqualityOfDiscreteLogsRandomnessSizedNumber_BITS
        = next_power_of_two ProofOfEqualityOfDiscreteLogsRandomness_UPPER_BOUND := by decide
      _ ≤ 2 ^ k := next_power_of_two_le hk
  · exact le_of_le_of_eq (le_next_power_of_two _)
      (by decide : next_power_of_two ADJUSTED_LAGRANGE_COEFFICIENT_SIZE_UPPER_BOUND =
        AdjustedLagrangeCoefficientSizedNumber_BITS)
  · intro k hk
    calc AdjustedLagrangeCoefficientSizedNumber_BITS
        = next_power_of_two ADJUSTED_LAGRANGE_COEFFICIENT_SIZE_UPPER_BOUND := by decide
      _ ≤ 2 ^ k := next_power_of_two_le hk

/-- Witness for C6: the minimality conjunct of each type applied at the
concrete exponents 15, 15 and 13. -/
theorem sized_number_types_minimal_power_of_two_widths_witness :
    SecretKeyShareSizedNumber_BITS ≤ 2 ^ 15 ∧
    ProofOfEqualityOfDiscreteLogsRandomnessSizedNumber_BITS ≤ 2 ^ 15 ∧
    AdjustedLagrangeCoefficientSizedNumber_BITS ≤ 2 ^ 13 :=
  ⟨sized_number_types_minimal_power_of_two_widths.1.2.2.2 15 (by decide),
   sized_number_types_minimal_power_of_two_widths.2.1.2.2.2 15 (by decide),
   sized_number_types_minimal_power_of_two_widths.2.2.2.2.2 13 (by decide)⟩

/-- C7: the pre-rounding bound sizing the proof-of-equality randomness mask is
exactly the secret-key-share bound plus twice the statistical security
parameter width (the code writes it with `ComputationalSecuritySizedNumber`,
which `StatisticalSecuritySizedNumber` aliases). -/
theorem proof_randomness_bound_is_share_bound_plus_twice_security :
    ProofOfEqualityOfDiscreteLogsRandomness_UPPER_BOUND =
      SECRET_KEY_SHARE_SIZE_UPPER_BOUND + 2 * StatisticalSecuritySizedNumber_BITS :=
  rfl

/-- C8: `Pedersen::new` with `BATCH_SIZE = 0` returns
`Err(InvalidPublicParameters)` for every public-parameters argument and every
behaviour of the group-element constructor — in particular the constructor is
never consulted, so the error is produced before any generator group element
is built. -/
theorem pedersen_new_batch_size_zero_errors {V G : Type}
    (groupElementNew : V → Except CommitmentError G)
    (pp : PedersenPublicParameters 0 V) :
    Pedersen.new groupElementNew pp =
      Except.error CommitmentError.invalidPublicParameters :=
  rfl

/-- C9: the secp256k1 `GroupElement::new` returns `Ok` for every value and
every public-parameters argument, and its result does not depend on the
public parameters at all: no validation happens at call time. -/
theorem secp256k1_group_element_new_never_fails {A P : Type} (toCurve : A → P)
    (value : Secp256k1Value A) :
    (∀ pp : Secp256k1PublicParameters A,
      Secp256k1GroupElement.new toCurve value pp =
        Except.ok { point := toCurve value.point }) ∧
    (∀ pp1 pp2 : Secp256k1PublicParameters A,
      Secp256k1GroupElement.new toCurve value pp1 =
        Secp256k1GroupElement.new toCurve value pp2) :=
  ⟨fun _ => rfl, fun _ _ => rfl⟩

/-- C10: the ristretto constants carry the standard curve25519 values:
`ORDER = 2^252 + 27742317777372353535851937790883648493`,
`MODULUS = 2^255 - 19`, `CURVE_EQUATION_A = 486662`, `CURVE_EQUATION_B = 1`. -/
theorem ristretto_constants_standard_values :
    ristretto.ORDER = 2 ^ 252 + 27742317777372353535851937790883648493 ∧
    ristretto.MODULUS = 2 ^ 255 - 19 ∧
    ristretto.CURVE_EQUATION_A = 486662 ∧
    ristretto.CURVE_EQUATION_B = 1 := by
  refine ⟨?_, ?_, by decide, by decide⟩
  · norm_num [ristretto.ORDER]
  · norm_num [ristretto.MODULUS]
